import Mathlib

/-!
# Verification of the UV-Safe AU forecast core

A shallow embedding of the forecast-normalization, series-building and
segmentation logic of the UV-Safe AU dashboard (`normalizePoint`,
`fetchUVData`'s forecast assembly, `getForecast24h`, `getCategory`,
`splitIntoSegments`), together with proofs of the specification's
testable properties.

JavaScript numbers are modelled as `Rat` (finite doubles; `NaN` outcomes
of coercions are modelled as `Option.none` at the few places they can
arise).  A JavaScript `Date` instant is modelled as `Int` milliseconds
since the Unix epoch; `Date` string parsing — whose general behaviour is
implementation-defined — is modelled by recording, for each string, the
outcome of `new Date(s)` and of `new Date(s + "Z")`, plus the canonical
ISO serialization map (ECMA-262 guarantees that parsing the string
produced by `toISOString` recovers exactly the original time value, and
that a string already ending in a zone designator becomes invalid when
another `"Z"` is appended).
-/

namespace UVSafe

instance {ε α : Type} [DecidableEq ε] [DecidableEq α] : DecidableEq (Except ε α) := fun x y =>
  match x, y with
  | Except.ok a, Except.ok b =>
    if h : a = b then Decidable.isTrue (by rw [h])
    else Decidable.isFalse (by simpa using h)
  | Except.error a, Except.error b =>
    if h : a = b then Decidable.isTrue (by rw [h])
    else Decidable.isFalse (by simpa using h)
  | Except.ok _, Except.error _ => Decidable.isFalse (by simp)
  | Except.error _, Except.ok _ => Decidable.isFalse (by simp)

/-- Model of a JavaScript string as observed by the `Date` machinery:
`parseMs` is the time value of `new Date(s)` (`none` for an Invalid
Date), `parseZMs` the time value of `new Date(s + "Z")`. -/
structure JsDateStr where
  parseMs : Option Int
  parseZMs : Option Int
deriving DecidableEq

/-- Model of `Date.prototype.toISOString` applied to a valid date with
time value `ms`: the canonical ISO-8601 UTC string.  Parsing it yields
exactly `ms` (ECMA-262 date-time string format); appending a further
`"Z"` yields an invalid format. -/
def isoOf (ms : Int) : JsDateStr :=
  { parseMs := some ms, parseZMs := none }

/-- JavaScript number-to-integer truncation (toward zero), as performed
by `TimeClip` on a finite time value. -/
def jsTrunc (q : Rat) : Int :=
  q.num.tdiv (q.den : Int)

/-- The largest representable `Date` time value, ±8.64×10¹⁵ ms. -/
def dateRangeMs : Int := 8640000000000000

/-- Model of `new Date(n)` for a finite number `n`: `TimeClip` yields the
truncated time value when the magnitude of `n` is within the
representable range and an Invalid Date (`none`) otherwise. -/
def dateFromNumber (t : Rat) : Option Int :=
  if -(8640000000000000 : Rat) ≤ t ∧ t ≤ (8640000000000000 : Rat) then some (jsTrunc t)
  else none

/-- A value found in one of the accepted timestamp fields: a JS number
or a JS string (other runtime types are not modelled; the accepted APIs
send numbers or strings here). -/
inductive TsVal where
  | num (t : Rat)
  | str (s : JsDateStr)
deriving DecidableEq

/-- A raw nested sun-position object, collapsed to the outcome of
`Number(raw.azimuth ?? raw.az ?? raw.a)` and
`Number(raw.altitude ?? raw.alt ?? raw.h)`; `none` models a `NaN`
coercion result. -/
structure SunPosRaw where
  azimuth : Option Rat
  altitude : Option Rat
deriving DecidableEq

/-- One raw forecast record (`p` in `normalizePoint`).  An outer `none`
models an absent, `undefined` or `null` field (skipped by `??`); for the
UV-value fields the inner `Option Rat` is the outcome of `Number(v)`
(`none` models a `NaN` result). -/
structure RawRecord where
  uv_time : Option TsVal := none
  time : Option TsVal := none
  timestamp : Option TsVal := none
  time_utc : Option TsVal := none
  uv : Option (Option Rat) := none
  value : Option (Option Rat) := none
  UV : Option (Option Rat) := none
  sun_position : Option SunPosRaw := none
  sunPosition : Option SunPosRaw := none
deriving DecidableEq

/-- The one JavaScript exception the core can raise: the `RangeError`
thrown by `toISOString` on an Invalid Date. -/
inductive JsError where
  | rangeError
deriving DecidableEq

/-- A validated sun position. -/
structure SunPosition where
  azimuth : Rat
  altitude : Rat
deriving DecidableEq

/-- A validated forecast point (`UVForecastPoint`). -/
structure ForecastPoint where
  uv : Rat
  uv_time : JsDateStr
  sun_position : Option SunPosition := none
deriving DecidableEq

/-- The field chain `p.uv_time ?? p.time ?? p.timestamp ?? p.time_utc ?? null`. -/
def tsChain (p : RawRecord) : Option TsVal :=
  match p.uv_time with
  | some v => some v
  | none =>
    match p.time with
    | some v => some v
    | none =>
      match p.timestamp with
      | some v => some v
      | none => p.time_utc

/-- The `typeof ts === "number"` branch of `normalizePoint`:
`if (ts > 1e12) ts = new Date(ts).toISOString();
 else if (ts > 1e9) ts = new Date(ts * 1000).toISOString();
 else ts = null;`
`toISOString` throws on an Invalid Date (time value out of range). -/
def numericTsStep : Option TsVal → Except JsError (Option TsVal)
  | some (TsVal.num t) =>
    if t > 1000000000000 then
      match dateFromNumber t with
      | some ms => Except.ok (some (TsVal.str (isoOf ms)))
      | none => Except.error JsError.rangeError
    else if t > 1000000000 then
      match dateFromNumber (t * 1000) with
      | some ms => Except.ok (some (TsVal.str (isoOf ms)))
      | none => Except.error JsError.rangeError
    else Except.ok none
  | other => Except.ok other

/-- The `typeof ts === "string"` branch of `normalizePoint`: parse
directly, retry with a `"Z"` appended, reject (`null`) if both fail;
a successful parse is reserialized with `toISOString` (a valid parse
result is always within range, so this cannot throw).  A non-string,
non-`null` value cannot reach this point: `numericTsStep` always
produces a string or `null`. -/
def stringTsStep : Option TsVal → Option JsDateStr
  | some (TsVal.str s) =>
    match s.parseMs with
    | some ms => some (isoOf ms)
    | none =>
      match s.parseZMs with
      | some ms => some (isoOf ms)
      | none => none
  | _ => none

/-- The full timestamp resolution pipeline of `normalizePoint`
(lines 118–138): field chain, numeric heuristic, string parsing. -/
def tsResolved (p : RawRecord) : Except JsError (Option JsDateStr) :=
  match numericTsStep (tsChain p) with
  | Except.error e => Except.error e
  | Except.ok ts2 => Except.ok (stringTsStep ts2)

/-- The field chain `p.uv ?? p.value ?? p.UV ?? null`, carrying the `Number` coercion
outcome of the selected value. -/
def uvChain (p : RawRecord) : Option (Option Rat) :=
  match p.uv with
  | some v => some v
  | none =>
    match p.value with
    | some v => some v
    | none => p.UV

/-- The optional sun-position resolution of `normalizePoint`: present in
the output only when both coordinates coerce to numbers. -/
def sunPosResolve (p : RawRecord) : Option SunPosition :=
  match (match p.sun_position with | some v => some v | none => p.sunPosition) with
  | none => none
  | some spr =>
    match spr.azimuth, spr.altitude with
    | some az, some alt => some { azimuth := az, altitude := alt }
    | _, _ => none

/-- The normalizer `normalizePoint` (dashboard, lines 114–165): `none` input models a
falsy element (`if (!p) return null`); `Except.error` models the
`RangeError` escaping from `toISOString`; `Except.ok none` models
`return null` (record rejected). -/
def normalizePoint : Option RawRecord → Except JsError (Option ForecastPoint)
  | none => Except.ok none
  | some p =>
    match tsResolved p with
    | Except.error e => Except.error e
    | Except.ok tsOpt =>
      match uvChain p with
      | none => Except.ok none
      | some uvCoerce =>
        match uvCoerce with
        | none => Except.ok none
        | some uvNum =>
          let sp := sunPosResolve p
          match tsOpt with
          | none => Except.ok none
          | some ts => Except.ok (some { uv := uvNum, uv_time := ts, sun_position := sp })

/-! ## Series builder

`fetchUVData` (lines 195–215): pick the forecast array from the envelope
(top level preferred, then `result.forecast`), normalize every element
(a thrown `RangeError` aborts the whole `map`), drop the rejected ones,
and sort ascending by `new Date(uv_time).getTime()` with the stable
`Array.prototype.sort`. -/

/-- The sort key: `new Date(pt.uv_time).getTime()`.  The strings stored
in a `ForecastPoint` are always canonical ISO serializations, for which
`parseMs` is defined; the default is irrelevant. -/
def keyTime (pt : ForecastPoint) : Int :=
  pt.uv_time.parseMs.getD 0

/-- The comparator order on forecast points. -/
def ptLE (a b : ForecastPoint) : Prop := keyTime a ≤ keyTime b

instance : DecidableRel ptLE := fun a b => inferInstanceAs (Decidable (keyTime a ≤ keyTime b))

instance : IsTotal ForecastPoint ptLE := ⟨fun a b => le_total (keyTime a) (keyTime b)⟩

instance : IsTrans ForecastPoint ptLE := ⟨fun _ _ _ h h2 => le_trans h h2⟩

/-- Model of `normalized.sort((a, b) => ta - tb)`: `Array.prototype.sort`
is required to be stable, so any stable ascending sort is a faithful
model; insertion sort is one. -/
def sortForecast (l : List ForecastPoint) : List ForecastPoint :=
  l.insertionSort ptLE

/-- The map `rawForecast.map(normalizePoint)`, evaluated left to right; the first
thrown `RangeError` aborts the whole map. -/
def normalizeList : List (Option RawRecord) → Except JsError (List (Option ForecastPoint))
  | [] => Except.ok []
  | r :: rs =>
    match normalizePoint r with
    | Except.error e => Except.error e
    | Except.ok o =>
      match normalizeList rs with
      | Except.error e => Except.error e
      | Except.ok os => Except.ok (o :: os)

/-- Normalize, `filter(x => x !== null)`, and keep the surviving points
in input order (the pre-sort list). -/
def keptPoints (raws : List (Option RawRecord)) : Except JsError (List ForecastPoint) :=
  match normalizeList raws with
  | Except.error e => Except.error e
  | Except.ok os => Except.ok (os.filterMap id)

/-- The series builder applied to a forecast array: normalize, filter,
sort. -/
def buildFromRaws (raws : List (Option RawRecord)) : Except JsError (List ForecastPoint) :=
  match keptPoints raws with
  | Except.error e => Except.error e
  | Except.ok pts => Except.ok (sortForecast pts)

/-- The two recognized top-level locations of the response envelope; a
`none` field models an absent or non-array value. -/
structure Envelope where
  forecast : Option (List (Option RawRecord)) := none
  resultForecast : Option (List (Option RawRecord)) := none

/-- The envelope probe `Array.isArray(data.forecast) ? data.forecast
     : Array.isArray(data.result?.forecast) ? data.result.forecast : null`. -/
def selectRawForecast (d : Envelope) : Option (List (Option RawRecord)) :=
  match d.forecast with
  | some arr => some arr
  | none => d.resultForecast

/-- The series builder applied to a whole envelope: with no recognized
array the forecast state is set to `[]`. -/
def buildSeries (d : Envelope) : Except JsError (List ForecastPoint) :=
  match selectRawForecast d with
  | some raws => buildFromRaws raws
  | none => Except.ok []

/-- The window `getForecast24h` (lines 242–249): empty in, empty out; otherwise
sort a copy and take the first 24 points.  No comparison against the
current wall-clock time occurs (the definition takes no clock input). -/
def getForecast24h (forecast : List ForecastPoint) : List ForecastPoint :=
  if forecast.length = 0 then []
  else (sortForecast forecast).take 24

/-! ## Chart data and segmentation -/

/-- One point of `chartData`: a local time label and the UV value. -/
structure ChartPoint where
  timeLabel : String
  uv : Rat
deriving DecidableEq

/-- The default used for the (always guarded) `headD` extractions below;
JS `seg[0]` on the relevant non-empty arrays. -/
def dfltPt : ChartPoint := { timeLabel := "", uv := 0 }

/-- UV severity categories. -/
inductive Category where
  | low
  | moderate
  | high
  | veryHigh
  | extreme
deriving DecidableEq

/-- The severity classifier `getCategory` (lines 266–272). -/
def getCategory (uv : Rat) : Category :=
  if uv < 3 then Category.low
  else if uv < 6 then Category.moderate
  else if uv < 8 then Category.high
  else if uv < 11 then Category.veryHigh
  else Category.extreme

/-- The push `segments[segments.length - 1].push(x)`: append a point to the last
segment (identity on an empty segment list, which never occurs at the
use sites). -/
def pushLast : List (List ChartPoint) → ChartPoint → List (List ChartPoint)
  | [], _ => []
  | [s], x => [s ++ [x]]
  | s :: rest, x => s :: pushLast rest x

/-- The scanning loop of `splitIntoSegments` (lines 301–329).  `data` is
the full array; the first list argument is `data.drop i`, scanned
structurally so the function computes by reduction; `start` and
`currentCat` are the run start index and its category; the result is the
segment list and the final value of `start`. -/
def segLoop (data : List ChartPoint) :
    List ChartPoint → Nat → Nat → Category → List (List ChartPoint) →
    List (List ChartPoint) × Nat
  | [], _, start, _, segments => (segments, start)
  | p :: rest, i, start, currentCat, segments =>
    let cat := getCategory p.uv
    if cat ≠ currentCat then
      -- make the segment include the boundary point
      let seg := (data.drop start).take (i + 1 - start)
      if seg.length = 1 then
        if 0 < segments.length then
          -- merge the single point into the previous segment
          segLoop data rest (i + 1) (i + 1) cat (pushLast segments (seg.headD dfltPt))
        else
          -- no previous segment: extend with the next point if present,
          -- consuming it
          match rest with
          | q :: rest2 =>
            segLoop data rest2 (i + 2) (i + 2) cat (segments ++ [seg ++ [q]])
          | [] => segLoop data [] (i + 1) (i + 1) cat (segments ++ [seg])
      else
        segLoop data rest (i + 1) (i + 1) cat (segments ++ [seg])
    else
      segLoop data rest (i + 1) start currentCat segments

/-- The segmentation `splitIntoSegments` (lines 294–342): scan for category changes, then
finalize the trailing run with the same length-1 merge rule. -/
def splitIntoSegments (data : List ChartPoint) : List (List ChartPoint) :=
  match data with
  | [] => []
  | p0 :: rest0 =>
    let r := segLoop data rest0 1 0 (getCategory p0.uv) []
    let segments := r.1
    let start := r.2
    if start < data.length then
      let lastSeg := data.drop start
      if lastSeg.length = 1 ∧ 0 < segments.length then
        pushLast segments (lastSeg.headD dfltPt)
      else
        segments ++ [lastSeg]
    else
      segments

/-- Whether adjacent points somewhere in the list fall in different
severity categories. -/
def hasCategoryChange : List ChartPoint → Bool
  | p :: q :: rest =>
    decide (getCategory p.uv ≠ getCategory q.uv) || hasCategoryChange (q :: rest)
  | _ => false

/-- A record's numeric timestamp (when it has one) lies within the
representable `Date` range, so its canonicalization cannot throw. -/
def tsNumOk : Option RawRecord → Bool
  | none => true
  | some p =>
    match tsChain p with
    | some (TsVal.num t) => decide (t ≤ 8640000000000000)
    | _ => true

/-- Range condition lifted to a whole envelope. -/
def envOk (d : Envelope) : Prop :=
  match selectRawForecast d with
  | none => True
  | some raws => ∀ r ∈ raws, tsNumOk r = true

/-! ## Concrete fixtures used by witnesses and counterexamples -/

/-- Three raw records with parsable timestamp strings, the later instant
first and a timestamp tie between the last two. -/
def exRaws : List (Option RawRecord) :=
  [some { time := some (TsVal.str { parseMs := some 2000, parseZMs := none }),
          uv := some (some 1) },
   some { time := some (TsVal.str { parseMs := some 1000, parseZMs := none }),
          uv := some (some 2) },
   some { time := some (TsVal.str { parseMs := some 1000, parseZMs := none }),
          uv := some (some 3) }]

/-- The surviving normalized points of `exRaws`, in input order. -/
def exKept : List ForecastPoint :=
  [{ uv := 1, uv_time := isoOf 2000 }, { uv := 2, uv_time := isoOf 1000 },
   { uv := 3, uv_time := isoOf 1000 }]

/-- The stable-sorted series of `exRaws`: the tied points keep their
input order. -/
def exSorted : List ForecastPoint :=
  [{ uv := 2, uv_time := isoOf 1000 }, { uv := 3, uv_time := isoOf 1000 },
   { uv := 1, uv_time := isoOf 2000 }]

/-- A record carrying a parsable (non-canonical) timestamp string. -/
def exRecStr : RawRecord :=
  { time := some (TsVal.str { parseMs := some 1700000000000, parseZMs := none }),
    uv := some (some 1) }

/-- The point `normalizePoint` builds from `exRecStr`. -/
def exPtStr : ForecastPoint := { uv := 1, uv_time := isoOf 1700000000000 }

/-- A record carrying the canonical serialization stored in `exPtStr`. -/
def exRecCanon : RawRecord :=
  { uv_time := some (TsVal.str (isoOf 1700000000000)), uv := some (some 2) }

/-- The point `normalizePoint` builds from `exRecCanon`. -/
def exPtCanon : ForecastPoint := { uv := 2, uv_time := isoOf 1700000000000 }

/-- An envelope holding one record with an in-range Unix-seconds
timestamp. -/
def exEnvSeconds : Envelope :=
  { forecast := some [some { time := some (TsVal.num 1700000000), uv := some (some 5) }] }

/-! ## Segmentation lemmas -/

lemma pushLast_flatten (segs : List (List ChartPoint)) (x : ChartPoint) (h : segs ≠ []) :
    (pushLast segs x).flatten = segs.flatten ++ [x] := by
  induction segs with
  | nil => exact absurd rfl h
  | cons s rest ih =>
    cases rest with
    | nil => simp [pushLast]
    | cons s2 rest2 =>
      have : pushLast (s :: s2 :: rest2) x = s :: pushLast (s2 :: rest2) x := rfl
      rw [this, List.flatten_cons, List.flatten_cons, ih (by simp), List.append_assoc]

lemma pushLast_ne_nil (segs : List (List ChartPoint)) (x : ChartPoint) (h : segs ≠ []) :
    pushLast segs x ≠ [] := by
  cases segs with
  | nil => exact absurd rfl h
  | cons s rest => cases rest <;> simp [pushLast]

lemma pushLast_min_len (segs : List (List ChartPoint)) (x : ChartPoint) (n : Nat)
    (h : ∀ s ∈ segs, n ≤ s.length) : ∀ s ∈ pushLast segs x, n ≤ s.length := by
  induction segs with
  | nil => intro s hs; simp [pushLast] at hs
  | cons s rest ih =>
    cases rest with
    | nil =>
      intro t ht
      simp [pushLast] at ht
      subst ht
      have := h s (by simp)
      simp
      omega
    | cons s2 rest2 =>
      intro t ht
      have : pushLast (s :: s2 :: rest2) x = s :: pushLast (s2 :: rest2) x := rfl
      rw [this] at ht
      rcases List.mem_cons.mp ht with h1 | h2
      · subst h1; exact h t (by simp)
      · exact ih (fun u hu => h u (List.mem_cons_of_mem _ hu)) t h2

/-- The loop invariant of `splitIntoSegments`: at each iteration the
pushed segments concatenate to the already-consumed prefix
`data.take start`, `start` stays in range, an empty segment list forces
`start = 0`, and every pushed segment has at least two points. -/
lemma segLoop_invariant (data : List ChartPoint) :
    ∀ (n : Nat) (rest : List ChartPoint), rest.length ≤ n →
    ∀ (i start : Nat) (currentCat : Category) (segments : List (List ChartPoint))
      (res : List (List ChartPoint) × Nat),
      data.drop i = rest → 1 ≤ i → start ≤ i → start ≤ data.length →
      segments.flatten = data.take start →
      (segments = [] → start = 0) →
      (∀ s ∈ segments, 2 ≤ s.length) →
      segLoop data rest i start currentCat segments = res →
      res.1.flatten = data.take res.2 ∧ res.2 ≤ data.length ∧
        (res.1 = [] → res.2 = 0) ∧ (∀ s ∈ res.1, 2 ≤ s.length) := by
  intro n
  induction n with
  | zero =>
    intro rest hlen i start currentCat segments res hdrop hi hsi hsl hjoin hemp hsegs hres
    have : rest = [] := List.length_eq_zero.mp (Nat.le_zero.mp hlen)
    subst this
    rw [segLoop] at hres
    subst hres
    exact ⟨hjoin, hsl, hemp, hsegs⟩
  | succ n ih =>
    intro rest hlen i start currentCat segments res hdrop hi hsi hsl hjoin hemp hsegs hres
    cases rest with
    | nil =>
      rw [segLoop] at hres
      subst hres
      exact ⟨hjoin, hsl, hemp, hsegs⟩
    | cons p rest1 =>
      -- basic index facts
      have hi_lt : i < data.length := by
        by_contra hge
        have : data.drop i = [] := List.drop_eq_nil_of_le (by omega)
        rw [hdrop] at this
        simp at this
      have hdrop1 : data.drop (i + 1) = rest1 := by
        have h2 : List.drop 1 (List.drop i data) = List.drop (i + 1) data := List.drop_drop 1 i data
        rw [hdrop] at h2
        simpa using h2.symm
      have hget : data[i]? = some p := by
        have h0 : (List.drop i data)[0]? = data[i + 0]? := List.getElem?_drop data i 0
        rw [hdrop] at h0
        simpa using h0.symm
      have htake_succ : data.take (i + 1) = data.take i ++ [p] := by
        rw [List.take_succ, hget]
        rfl
      have hseg_pre : data.take start ++ (data.drop start).take (i + 1 - start) = data.take (i + 1) := by
        rw [← List.take_add]
        congr 1
        omega
      have hlen1 : rest1.length ≤ n := by
        simp at hlen
        omega
      rw [segLoop] at hres
      by_cases hcc : getCategory p.uv = currentCat
      · -- no category change: continue with the same run
        simp only [hcc, ne_eq, not_true_eq_false, if_false, ite_false] at hres
        exact ih rest1 hlen1 (i + 1) start currentCat segments res hdrop1 (by omega)
          (by omega) hsl hjoin hemp hsegs hres
      · -- category change at index i
        simp only [ne_eq, hcc, not_false_eq_true, if_true, ite_true] at hres
        set seg := (data.drop start).take (i + 1 - start) with hseg_def
        have hseg_len : seg.length = i + 1 - start := by
          rw [hseg_def, List.length_take, List.length_drop]
          omega
        by_cases h1 : seg.length = 1
        · simp only [h1, if_true, ite_true] at hres
          have hstart_i : start = i := by omega
          have hseg_val : seg = [p] := by
            rw [hseg_def, hstart_i, hdrop]
            have : i + 1 - i = 1 := by omega
            rw [this]
            rfl
          by_cases h2 : 0 < segments.length
          · -- merge the lone boundary point into the previous segment
            simp only [h2, if_true, ite_true] at hres
            have hne : segments ≠ [] := by
              intro hh
              rw [hh] at h2
              simp at h2
            have hjoin2 : (pushLast segments (seg.headD dfltPt)).flatten = data.take (i + 1) := by
              rw [pushLast_flatten segments _ hne, hjoin, hseg_val]
              simp only [List.headD_cons]
              rw [hstart_i, htake_succ]
            exact ih rest1 hlen1 (i + 1) (i + 1) (getCategory p.uv)
              (pushLast segments (seg.headD dfltPt)) res hdrop1 (by omega) (by omega)
              (by omega) hjoin2
              (fun hh => absurd hh (pushLast_ne_nil segments _ hne))
              (pushLast_min_len segments _ 2 hsegs) hres
          · -- no previous segment (only reachable, per the invariant, never:
            -- the join invariant still goes through directly)
            simp only [h2, if_false, ite_false] at hres
            have hsegs_nil : segments = [] := by
              cases segments with
              | nil => rfl
              | cons a b => simp at h2
            have hstart0 : start = 0 := hemp hsegs_nil
            -- with no previous segment the first candidate has length i + 1 ≥ 2
            exfalso
            omega
        · -- ordinary candidate segment of length ≥ 2
          simp only [h1, if_false, ite_false] at hres
          have hjoin2 : (segments ++ [seg]).flatten = data.take (i + 1) := by
            rw [List.flatten_append, hjoin]
            simp only [List.flatten_cons, List.flatten_nil, List.append_nil]
            exact hseg_pre
          have hsegs2 : ∀ s ∈ segments ++ [seg], 2 ≤ s.length := by
            intro s hs
            rcases List.mem_append.mp hs with hmem | hmem
            · exact hsegs s hmem
            · simp at hmem
              subst hmem
              omega
          exact ih rest1 hlen1 (i + 1) (i + 1) (getCategory p.uv) (segments ++ [seg]) res
            hdrop1 (by omega) (by omega) (by omega) hjoin2 (by simp) hsegs2 hres

/-- Combined correctness of `splitIntoSegments`: the emitted segments
concatenate (without overlap) to exactly the input, and a length-1
segment can only occur as the sole segment of the whole output. -/
lemma splitIntoSegments_spec (data : List ChartPoint) :
    (splitIntoSegments data).flatten = data ∧
      (∀ s ∈ splitIntoSegments data, s.length = 1 → splitIntoSegments data = [s]) := by
  cases hdata : data with
  | nil => simp [splitIntoSegments]
  | cons p0 rest0 =>
    subst hdata
    obtain ⟨hjoin, hle, hemp, hsegs⟩ :=
      segLoop_invariant (p0 :: rest0) rest0.length rest0 (le_refl _) 1 0 (getCategory p0.uv) []
        (segLoop (p0 :: rest0) rest0 1 0 (getCategory p0.uv) []) rfl (le_refl 1) (by omega)
        (by simp) rfl (fun _ => rfl) (by simp) rfl
    set r := segLoop (p0 :: rest0) rest0 1 0 (getCategory p0.uv) [] with hr
    have hunfold : splitIntoSegments (p0 :: rest0) =
        (if r.2 < (p0 :: rest0).length then
          if ((p0 :: rest0).drop r.2).length = 1 ∧ 0 < r.1.length then
            pushLast r.1 (((p0 :: rest0).drop r.2).headD dfltPt)
          else r.1 ++ [(p0 :: rest0).drop r.2]
        else r.1) := by
      rw [splitIntoSegments, ← hr]
    by_cases hlt : r.2 < (p0 :: rest0).length
    · rw [if_pos hlt] at hunfold
      by_cases hcond : ((p0 :: rest0).drop r.2).length = 1 ∧ 0 < r.1.length
      · rw [if_pos hcond] at hunfold
        obtain ⟨hlast1, hpos⟩ := hcond
        have hne : r.1 ≠ [] := by
          intro hh
          rw [hh] at hpos
          simp at hpos
        obtain ⟨x0, hx0⟩ : ∃ x0, (p0 :: rest0).drop r.2 = [x0] := by
          cases hd : (p0 :: rest0).drop r.2 with
          | nil => rw [hd] at hlast1; simp at hlast1
          | cons a b =>
            rw [hd] at hlast1
            simp at hlast1
            exact ⟨a, by rw [hlast1]⟩
        constructor
        · rw [hunfold, pushLast_flatten r.1 _ hne, hjoin, hx0]
          simp only [List.headD_cons]
          conv_rhs => rw [← List.take_append_drop r.2 (p0 :: rest0)]
          rw [hx0]
        · intro s hs hs1
          rw [hunfold] at hs
          have := pushLast_min_len r.1 _ 2 hsegs s hs
          omega
      · rw [if_neg hcond] at hunfold
        constructor
        · rw [hunfold, List.flatten_append, hjoin]
          simp only [List.flatten_cons, List.flatten_nil, List.append_nil]
          exact List.take_append_drop r.2 (p0 :: rest0)
        · intro s hs hs1
          rw [hunfold] at hs
          rcases List.mem_append.mp hs with hmem | hmem
          · have := hsegs s hmem
            omega
          · simp at hmem
            have hlast1 : ((p0 :: rest0).drop r.2).length = 1 := by rw [← hmem, hs1]
            have hz : r.1.length = 0 := by
              by_contra hnz
              exact hcond ⟨hlast1, by omega⟩
            have hnil : r.1 = [] := List.length_eq_zero.mp hz
            have hstart0 : r.2 = 0 := hemp hnil
            rw [hunfold, hnil, hstart0]
            rw [hstart0] at hmem
            simp at hmem ⊢
            exact hmem.symm
    · rw [if_neg hlt] at hunfold
      have hstart_len : r.2 = (p0 :: rest0).length := by omega
      constructor
      · rw [hunfold, hjoin, hstart_len, List.take_length]
      · intro s hs hs1
        rw [hunfold] at hs
        have := hsegs s hs
        omega

/-! ## Sorting lemmas: stability of the stable-sort model -/

lemma filter_orderedInsert (p : ForecastPoint → Bool) (a : ForecastPoint)
    (l : List ForecastPoint)
    (h : p a = true → ∀ b, ¬ ptLE a b → p b = false) :
    (List.orderedInsert ptLE a l).filter p
      = if p a then a :: l.filter p else l.filter p := by
  induction l with
  | nil =>
    simp [List.orderedInsert, List.filter_cons]
  | cons b t ih =>
    by_cases hab : ptLE a b
    · have hstep : List.orderedInsert ptLE a (b :: t) = a :: b :: t := by
        simp [List.orderedInsert, hab]
      rw [hstep]
      cases hpa : p a <;> simp [List.filter_cons, hpa]
    · have hstep : List.orderedInsert ptLE a (b :: t) = b :: List.orderedInsert ptLE a t := by
        simp [List.orderedInsert, hab]
      rw [hstep]
      cases hpa : p a with
      | false =>
        simp only [List.filter_cons, ih, hpa, if_false]
        cases hpb : p b <;> simp [hpb]
      | true =>
        have hpb : p b = false := h hpa b hab
        simp [List.filter_cons, hpb, ih, hpa]

lemma filter_insertionSort (p : ForecastPoint → Bool)
    (hmono : ∀ a b, p a = true → ¬ ptLE a b → p b = false)
    (l : List ForecastPoint) :
    (List.insertionSort ptLE l).filter p = l.filter p := by
  induction l with
  | nil => rfl
  | cons a t ih =>
    have hstep : List.insertionSort ptLE (a :: t)
        = List.orderedInsert ptLE a (List.insertionSort ptLE t) := rfl
    rw [hstep, filter_orderedInsert p a _ (fun hpa b hb => hmono a b hpa hb), ih]
    cases hpa : p a <;> simp [List.filter_cons, hpa]

/-! ## Normalizer inversion lemmas -/

/-- A constructed `ForecastPoint` records exactly the resolved timestamp,
the coerced UV number and the best-effort sun position of its record. -/
lemma normalizePoint_ok_inv (p : RawRecord) (pt : ForecastPoint)
    (h : normalizePoint (some p) = Except.ok (some pt)) :
    tsResolved p = Except.ok (some pt.uv_time) ∧ uvChain p = some (some pt.uv) ∧
      pt.sun_position = sunPosResolve p := by
  simp only [normalizePoint] at h
  cases hts : tsResolved p with
  | error e => rw [hts] at h; simp at h
  | ok tsOpt =>
    rw [hts] at h
    cases huv : uvChain p with
    | none => rw [huv] at h; simp at h
    | some uvc =>
      rw [huv] at h
      cases uvc with
      | none => simp at h
      | some uvNum =>
        cases tsOpt with
        | none => simp at h
        | some ts =>
          simp only [Except.ok.injEq, Option.some.injEq] at h
          rw [← h]
          exact ⟨rfl, rfl, rfl⟩

/-- Every timestamp stored in a constructed point is a canonical
`toISOString` serialization of some instant. -/
lemma tsResolved_canonical (p : RawRecord) (ts : JsDateStr)
    (h : tsResolved p = Except.ok (some ts)) : ∃ ms, ts = isoOf ms := by
  unfold tsResolved at h
  cases hnum : numericTsStep (tsChain p) with
  | error e => rw [hnum] at h; simp at h
  | ok ts2 =>
    rw [hnum] at h
    simp only [Except.ok.injEq] at h
    cases ts2 with
    | none => simp [stringTsStep] at h
    | some v =>
      cases v with
      | num t => simp [stringTsStep] at h
      | str s =>
        simp only [stringTsStep] at h
        cases h1 : s.parseMs with
        | some ms => rw [h1] at h; simp at h; exact ⟨ms, h.symm⟩
        | none =>
          rw [h1] at h
          cases h2 : s.parseZMs with
          | some ms => rw [h2] at h; simp at h; exact ⟨ms, h.symm⟩
          | none => rw [h2] at h; simp at h

/-! ## Totality lemmas: the only exception the core can raise -/

/-- Exhaustive description of the numeric heuristic, including the two
boundary corrections: the seconds bucket is the open-below interval
`1e9 < t ≤ 1e12` (so `t = 1e12` is seconds, not milliseconds), `t ≤ 1e9`
is unresolvable, and a millisecond value beyond the `Date` range makes
`toISOString` throw. -/
lemma tsResolved_num (p : RawRecord) (t : Rat) (hts : tsChain p = some (TsVal.num t)) :
    (1000000000000 < t → t ≤ 8640000000000000 →
      tsResolved p = Except.ok (some (isoOf (jsTrunc t)))) ∧
    (8640000000000000 < t → tsResolved p = Except.error JsError.rangeError) ∧
    (1000000000 < t → t ≤ 1000000000000 →
      tsResolved p = Except.ok (some (isoOf (jsTrunc (t * 1000))))) ∧
    (t ≤ 1000000000 → tsResolved p = Except.ok none) := by
  refine ⟨?_, ?_, ?_, ?_⟩
  · intro h12 hrange
    unfold tsResolved
    simp only [numericTsStep, hts]
    rw [if_pos (by exact h12)]
    have hd : dateFromNumber t = some (jsTrunc t) := by
      unfold dateFromNumber
      rw [if_pos ⟨by linarith, hrange⟩]
    rw [hd]
    rfl
  · intro hbig
    unfold tsResolved
    simp only [numericTsStep, hts]
    rw [if_pos (by linarith)]
    have hd : dateFromNumber t = none := by
      unfold dateFromNumber
      rw [if_neg]
      intro hcon
      linarith [hcon.2]
    rw [hd]
  · intro h9 h12
    unfold tsResolved
    simp only [numericTsStep, hts]
    rw [if_neg (by linarith), if_pos (by exact h9)]
    have hd : dateFromNumber (t * 1000) = some (jsTrunc (t * 1000)) := by
      unfold dateFromNumber
      rw [if_pos ⟨by linarith, by linarith⟩]
    rw [hd]
    rfl
  · intro hsmall
    unfold tsResolved
    simp only [numericTsStep, hts]
    rw [if_neg (by linarith), if_neg (by linarith)]
    rfl

/-- With an in-range (or non-numeric) timestamp field, `normalizePoint`
never throws. -/
lemma normalizePoint_no_throw (r : Option RawRecord) (h : tsNumOk r = true) :
    ∃ o, normalizePoint r = Except.ok o := by
  cases r with
  | none => exact ⟨none, rfl⟩
  | some p =>
    have hres : ∃ ts2, tsResolved p = Except.ok ts2 := by
      cases hts : tsChain p with
      | none => exact ⟨none, by unfold tsResolved; simp only [numericTsStep, hts]; rfl⟩
      | some v =>
        cases v with
        | str s =>
          refine ⟨stringTsStep (some (TsVal.str s)), ?_⟩
          unfold tsResolved
          simp only [numericTsStep, hts]
        | num t =>
          simp only [tsNumOk, hts] at h
          have hle : t ≤ 8640000000000000 := of_decide_eq_true h
          obtain ⟨h1, _, h3, h4⟩ := tsResolved_num p t hts
          by_cases c12 : 1000000000000 < t
          · exact ⟨_, h1 c12 hle⟩
          · by_cases c9 : 1000000000 < t
            · exact ⟨_, h3 c9 (by linarith)⟩
            · exact ⟨_, h4 (by linarith)⟩
    obtain ⟨ts2, hts2⟩ := hres
    simp only [normalizePoint, hts2]
    cases uvChain p with
    | none => exact ⟨none, rfl⟩
    | some uvc =>
      cases uvc with
      | none => exact ⟨none, rfl⟩
      | some uvNum =>
        cases ts2 with
        | none => exact ⟨none, rfl⟩
        | some ts => exact ⟨_, rfl⟩

/-- The list normalization never throws when every element is in range. -/
lemma normalizeList_no_throw (raws : List (Option RawRecord))
    (h : ∀ r ∈ raws, tsNumOk r = true) :
    ∃ os, normalizeList raws = Except.ok os := by
  induction raws with
  | nil => exact ⟨[], rfl⟩
  | cons r rs ih =>
    obtain ⟨o, ho⟩ := normalizePoint_no_throw r (h r (by simp))
    obtain ⟨os, hos⟩ := ih (fun u hu => h u (List.mem_cons_of_mem _ hu))
    exact ⟨o :: os, by simp only [normalizeList, ho, hos]⟩

/-- The series builder never throws when every element is in range. -/
lemma buildFromRaws_no_throw (raws : List (Option RawRecord))
    (h : ∀ r ∈ raws, tsNumOk r = true) :
    ∃ pts, buildFromRaws raws = Except.ok pts := by
  obtain ⟨os, hos⟩ := normalizeList_no_throw raws h
  refine ⟨sortForecast (os.filterMap id), ?_⟩
  simp only [buildFromRaws, keptPoints, hos]

/-- The concrete value `normalizePoint` takes on a record whose numeric
timestamp is exactly 1e12: the seconds interpretation (instant 1e15 ms),
because the milliseconds bucket is the strict inequality `t > 1e12`. -/
lemma normalizePoint_at_1e12 :
    normalizePoint (some { time := some (TsVal.num 1000000000000), uv := some (some 5) })
      = Except.ok (some { uv := 5, uv_time := isoOf 1000000000000000 }) := by
  have hmul : (1000000000000 : Rat) * 1000 = 1000000000000000 := by norm_num
  have h3 := (tsResolved_num { time := some (TsVal.num 1000000000000), uv := some (some 5) }
    1000000000000 rfl).2.2.1 (by norm_num) (by norm_num)
  rw [hmul] at h3
  have hj : jsTrunc (1000000000000000 : Rat) = 1000000000000000 := by decide
  rw [hj] at h3
  simp only [normalizePoint, h3]
  rfl

/-! ## Claim C1 -/

/-- C1 (counterexample): on the four-point series below the segmentation
emits two adjacent segments of differing category, and the last point of
the first segment is NOT the first point of the second — adjacent
segments do not share their boundary point — and dropping one copy of a
supposedly shared join does not reconstruct the input. -/
theorem c1_counterexample :
    splitIntoSegments
        [{ timeLabel := "00:00", uv := 1 }, { timeLabel := "01:00", uv := 7 },
         { timeLabel := "02:00", uv := 7 }, { timeLabel := "03:00", uv := 7 }]
      = [[{ timeLabel := "00:00", uv := 1 }, { timeLabel := "01:00", uv := 7 }],
         [{ timeLabel := "02:00", uv := 7 }, { timeLabel := "03:00", uv := 7 }]] ∧
    getCategory (1 : Rat) ≠ getCategory (7 : Rat) ∧
    ({ timeLabel := "01:00", uv := 7 } : ChartPoint) ≠ { timeLabel := "02:00", uv := 7 } ∧
    ([{ timeLabel := "00:00", uv := 1 }, { timeLabel := "01:00", uv := 7 }] : List ChartPoint) ++
        ([{ timeLabel := "02:00", uv := 7 }, { timeLabel := "03:00", uv := 7 }].drop 1)
      ≠ [{ timeLabel := "00:00", uv := 1 }, { timeLabel := "01:00", uv := 7 },
         { timeLabel := "02:00", uv := 7 }, { timeLabel := "03:00", uv := 7 }] := by
  refine ⟨by decide, by decide, by decide, by decide⟩

/-- C1 (amended): for every windowed series of two or more points with a
category change, the segments are pairwise-disjoint consecutive blocks —
the boundary point (the first point of the new category) ends the
preceding segment and is not repeated at the start of the next — and
plain concatenation of the segments in order, each point counted exactly
once, reconstructs exactly the windowed input series. -/
theorem c1_disjoint_reconstruction (data : List ChartPoint)
    (h2 : 2 ≤ data.length) (hchange : hasCategoryChange data = true) :
    (splitIntoSegments data).flatten = data :=
  (splitIntoSegments_spec data).1

theorem c1_disjoint_reconstruction_witness :
    (2 ≤ ([{ timeLabel := "00:00", uv := 1 }, { timeLabel := "01:00", uv := 7 },
           { timeLabel := "02:00", uv := 7 }] : List ChartPoint).length ∧
      hasCategoryChange
        [{ timeLabel := "00:00", uv := 1 }, { timeLabel := "01:00", uv := 7 },
         { timeLabel := "02:00", uv := 7 }] = true) ∧
    (splitIntoSegments
        [{ timeLabel := "00:00", uv := 1 }, { timeLabel := "01:00", uv := 7 },
         { timeLabel := "02:00", uv := 7 }]).flatten
      = [{ timeLabel := "00:00", uv := 1 }, { timeLabel := "01:00", uv := 7 },
         { timeLabel := "02:00", uv := 7 }] :=
  ⟨⟨by decide, by decide⟩, c1_disjoint_reconstruction _ (by decide) (by decide)⟩

/-! ## Claim C2 -/

/-- C2 (counterexample): a numeric timestamp of exactly 1e9 is claimed
to resolve as Unix seconds, but the code rejects the record (`> 1e9` is
strict); and a numeric timestamp of 1e16 (> 1e12) is claimed to resolve
as milliseconds, but the canonicalization throws a `RangeError` because
the value exceeds the representable `Date` range. -/
theorem c2_counterexample :
    normalizePoint (some { time := some (TsVal.num 1000000000), uv := some (some 5) })
      = Except.ok none ∧
    normalizePoint (some { time := some (TsVal.num 10000000000000000), uv := some (some 5) })
      = Except.error JsError.rangeError := by
  refine ⟨by decide, by decide⟩

/-- C2 (amended): for a record whose time-like field holds a number `t`
(and whose UV value parses): if `1e12 < t` and `t` is within the
representable `Date` range the record resolves to the instant
`trunc t` milliseconds; if `t` exceeds that range the canonicalization
throws; if `1e9 < t ≤ 1e12` it resolves to `trunc (1000 t)` milliseconds
(the seconds interpretation); if `t ≤ 1e9` the timestamp is unresolvable
and the record is rejected. -/
theorem c2_numeric_timestamp_resolution (p : RawRecord) (t x : Rat)
    (hts : tsChain p = some (TsVal.num t)) (huv : uvChain p = some (some x)) :
    (1000000000000 < t → t ≤ 8640000000000000 →
      normalizePoint (some p) = Except.ok (some
        { uv := x, uv_time := isoOf (jsTrunc t), sun_position := sunPosResolve p })) ∧
    (8640000000000000 < t → normalizePoint (some p) = Except.error JsError.rangeError) ∧
    (1000000000 < t → t ≤ 1000000000000 →
      normalizePoint (some p) = Except.ok (some
        { uv := x, uv_time := isoOf (jsTrunc (t * 1000)), sun_position := sunPosResolve p })) ∧
    (t ≤ 1000000000 → normalizePoint (some p) = Except.ok none) := by
  obtain ⟨h1, h2, h3, h4⟩ := tsResolved_num p t hts
  refine ⟨?_, ?_, ?_, ?_⟩
  · intro a b
    simp only [normalizePoint, h1 a b, huv]
  · intro a
    simp only [normalizePoint, h2 a, huv]
  · intro a b
    simp only [normalizePoint, h3 a b, huv]
  · intro a
    simp only [normalizePoint, h4 a, huv]

theorem c2_numeric_timestamp_resolution_witness :
    (tsChain { time := some (TsVal.num 2000000000000), uv := some (some 5) }
        = some (TsVal.num 2000000000000) ∧
      uvChain { time := some (TsVal.num 2000000000000), uv := some (some 5) }
        = some (some 5) ∧
      (1000000000000 : Rat) < 2000000000000 ∧ (2000000000000 : Rat) ≤ 8640000000000000) ∧
    normalizePoint (some { time := some (TsVal.num 2000000000000), uv := some (some 5) })
      = Except.ok (some { uv := 5, uv_time := isoOf (jsTrunc 2000000000000),
                          sun_position := none }) :=
  ⟨⟨rfl, rfl, by decide, by decide⟩,
    (c2_numeric_timestamp_resolution
      { time := some (TsVal.num 2000000000000), uv := some (some 5) }
      2000000000000 5 rfl rfl).1 (by decide) (by decide)⟩

/-! ## Claim C3 -/

/-- C3 (counterexample): exactly 1e12 is claimed to be treated as
milliseconds, but the code resolves it as seconds — the stored canonical
instant is 1e15 ms, not 1e12 ms; and exactly 1e9 is claimed to be
treated as seconds, but the code rejects the record. -/
theorem c3_counterexample :
    normalizePoint (some { time := some (TsVal.num 1000000000000), uv := some (some 5) })
      = Except.ok (some { uv := 5, uv_time := isoOf 1000000000000000 }) ∧
    isoOf 1000000000000000 ≠ isoOf 1000000000000 ∧
    normalizePoint (some { time := some (TsVal.num 1000000000), uv := some (some 5) })
      = Except.ok none :=
  ⟨normalizePoint_at_1e12, by decide, by decide⟩

/-- C3 (amended): both bucket bounds are exclusive below: exactly 1e9 is
unresolvable (the record is rejected), and exactly 1e12 falls in the
seconds bucket (its resolved instant is 1e15 ms). -/
theorem c3_bucket_bounds :
    normalizePoint (some { time := some (TsVal.num 1000000000), uv := some (some 5) })
      = Except.ok none ∧
    normalizePoint (some { time := some (TsVal.num 1000000000000), uv := some (some 5) })
      = Except.ok (some { uv := 5, uv_time := isoOf 1000000000000000 }) :=
  ⟨by decide, normalizePoint_at_1e12⟩

/-! ## Claim C4 -/

/-- C4: no emitted segment has length 1 unless it is the sole segment of
the entire output — a length-1 candidate run is merged into the
preceding completed segment (the absorb-following-point fallback exists
in the code but is unreachable, since the first candidate segment always
spans indices 0..i with i ≥ 1). -/
theorem c4_no_lone_singleton_segment (data : List ChartPoint) (s : List ChartPoint)
    (hs : s ∈ splitIntoSegments data) (h1 : s.length = 1) :
    splitIntoSegments data = [s] :=
  (splitIntoSegments_spec data).2 s hs h1

theorem c4_no_lone_singleton_segment_witness :
    ([{ timeLabel := "09:00", uv := 2 }] ∈ splitIntoSegments [{ timeLabel := "09:00", uv := 2 }] ∧
      ([{ timeLabel := "09:00", uv := 2 }] : List ChartPoint).length = 1) ∧
    splitIntoSegments [{ timeLabel := "09:00", uv := 2 }] = [[{ timeLabel := "09:00", uv := 2 }]] :=
  ⟨⟨by decide, by decide⟩,
    c4_no_lone_singleton_segment _ [{ timeLabel := "09:00", uv := 2 }] (by decide) (by decide)⟩

/-! ## Claim C5 -/

/-- C5: for every non-empty forecast series the bounded-lookahead window
is exactly the first 24 points of the sorted series (all of them when
fewer than 24 exist), a fixed count from the front — `getForecast24h`
takes no clock input and performs no wall-clock comparison. -/
theorem c5_fixed_count_window (fc : List ForecastPoint) (h : fc ≠ []) :
    getForecast24h fc = (sortForecast fc).take 24 ∧
    (getForecast24h fc).length = min 24 fc.length ∧
    (fc.length ≤ 24 → getForecast24h fc = sortForecast fc) := by
  have hlen : ¬fc.length = 0 := fun hh => h (List.length_eq_zero.mp hh)
  unfold getForecast24h
  rw [if_neg hlen]
  refine ⟨rfl, ?_, ?_⟩
  · rw [List.length_take]
    unfold sortForecast
    rw [List.length_insertionSort]
  · intro hle
    apply List.take_of_length_le
    unfold sortForecast
    rw [List.length_insertionSort]
    exact hle

theorem c5_fixed_count_window_witness :
    (([{ uv := 3, uv_time := isoOf 1000 }, { uv := 4, uv_time := isoOf 500 }] :
        List ForecastPoint) ≠ []) ∧
    (getForecast24h [{ uv := 3, uv_time := isoOf 1000 }, { uv := 4, uv_time := isoOf 500 }]
        = (sortForecast [{ uv := 3, uv_time := isoOf 1000 }, { uv := 4, uv_time := isoOf 500 }]).take 24 ∧
      (getForecast24h [{ uv := 3, uv_time := isoOf 1000 }, { uv := 4, uv_time := isoOf 500 }]).length
        = min 24 ([{ uv := 3, uv_time := isoOf 1000 }, { uv := 4, uv_time := isoOf 500 }] :
            List ForecastPoint).length ∧
      (([{ uv := 3, uv_time := isoOf 1000 }, { uv := 4, uv_time := isoOf 500 }] :
          List ForecastPoint).length ≤ 24 →
        getForecast24h [{ uv := 3, uv_time := isoOf 1000 }, { uv := 4, uv_time := isoOf 500 }]
          = sortForecast [{ uv := 3, uv_time := isoOf 1000 }, { uv := 4, uv_time := isoOf 500 }])) :=
  ⟨by decide, c5_fixed_count_window _ (by decide)⟩

/-! ## Claim C6 -/

/-- C6: a `ForecastPoint` is only ever constructed from a record whose
timestamp resolved (to exactly the stored canonical string) and whose UV
value coerced to a number (exactly the stored value); contrapositively,
a record whose UV chain is absent, null or NaN, or whose timestamp is
unresolvable, never yields a point. -/
theorem c6_validated_point_invariant (p : RawRecord) (pt : ForecastPoint)
    (h : normalizePoint (some p) = Except.ok (some pt)) :
    tsResolved p = Except.ok (some pt.uv_time) ∧ uvChain p = some (some pt.uv) :=
  ⟨(normalizePoint_ok_inv p pt h).1, (normalizePoint_ok_inv p pt h).2.1⟩

theorem c6_validated_point_invariant_witness :
    normalizePoint (some { time := some (TsVal.str { parseMs := some 100, parseZMs := none }),
                           uv := some (some 3) })
      = Except.ok (some { uv := 3, uv_time := isoOf 100 }) ∧
    (tsResolved { time := some (TsVal.str { parseMs := some 100, parseZMs := none }),
                  uv := some (some 3) }
        = Except.ok (some ({ uv := 3, uv_time := isoOf 100 } : ForecastPoint).uv_time) ∧
      uvChain { time := some (TsVal.str { parseMs := some 100, parseZMs := none }),
                uv := some (some 3) }
        = some (some ({ uv := 3, uv_time := isoOf 100 } : ForecastPoint).uv)) :=
  ⟨by decide, c6_validated_point_invariant _ _ (by decide)⟩

/-! ## Claim C7 -/

/-- C7: for every input collection (hence for every permutation of a
valid input) the built series is sorted non-decreasing by resolved
timestamp, is a permutation of the surviving normalized points, and the
sort is stable: for every timestamp value, the points carrying it appear
in the output in exactly their pre-sort (input) order. -/
theorem c7_sorted_stable (raws : List (Option RawRecord))
    (kept pts : List ForecastPoint)
    (hkept : keptPoints raws = Except.ok kept)
    (hbuild : buildFromRaws raws = Except.ok pts) :
    List.Sorted ptLE pts ∧ pts.Perm kept ∧
      ∀ k : Int, pts.filter (fun x => keyTime x == k)
        = kept.filter (fun x => keyTime x == k) := by
  have hpts : pts = sortForecast kept := by
    unfold buildFromRaws at hbuild
    rw [hkept] at hbuild
    simpa using hbuild.symm
  subst hpts
  refine ⟨List.sorted_insertionSort ptLE kept, List.perm_insertionSort ptLE kept, ?_⟩
  intro k
  apply filter_insertionSort
  intro a b hpa hab
  simp only [beq_iff_eq] at hpa
  have hlt : keyTime b < keyTime a := lt_of_not_le hab
  simp only [beq_eq_false_iff_ne, ne_eq]
  omega

theorem c7_sorted_stable_witness :
    (keptPoints exRaws = Except.ok exKept ∧ buildFromRaws exRaws = Except.ok exSorted) ∧
    (List.Sorted ptLE exSorted ∧ exSorted.Perm exKept ∧
      ∀ k : Int, exSorted.filter (fun x => keyTime x == k)
        = exKept.filter (fun x => keyTime x == k)) :=
  ⟨⟨by decide, by decide⟩, c7_sorted_stable exRaws exKept exSorted (by decide) (by decide)⟩

/-! ## Claim C8 -/

/-- C8: when a record's timestamp string resolves, the stored canonical
output string resolves again — in any later record that carries it — to
the very same instant: timestamp normalization is idempotent. -/
theorem c8_idempotent_timestamp (p p2 : RawRecord) (pt pt2 : ForecastPoint) (s : JsDateStr)
    (h0 : tsChain p = some (TsVal.str s))
    (h1 : normalizePoint (some p) = Except.ok (some pt))
    (h2 : tsChain p2 = some (TsVal.str pt.uv_time))
    (h3 : normalizePoint (some p2) = Except.ok (some pt2)) :
    pt2.uv_time = pt.uv_time := by
  obtain ⟨hts1, -, -⟩ := normalizePoint_ok_inv p pt h1
  obtain ⟨ms, hms⟩ := tsResolved_canonical p pt.uv_time hts1
  obtain ⟨hts2, -, -⟩ := normalizePoint_ok_inv p2 pt2 h3
  have hcalc : tsResolved p2 = Except.ok (stringTsStep (some (TsVal.str pt.uv_time))) := by
    unfold tsResolved
    rw [h2]
    rfl
  have hstr : stringTsStep (some (TsVal.str pt.uv_time)) = some (isoOf ms) := by
    rw [hms]
    rfl
  rw [hstr] at hcalc
  rw [hcalc] at hts2
  simp only [Except.ok.injEq, Option.some.injEq] at hts2
  rw [← hts2, hms]

theorem c8_idempotent_timestamp_witness :
    (tsChain exRecStr = some (TsVal.str { parseMs := some 1700000000000, parseZMs := none }) ∧
      normalizePoint (some exRecStr) = Except.ok (some exPtStr) ∧
      tsChain exRecCanon = some (TsVal.str exPtStr.uv_time) ∧
      normalizePoint (some exRecCanon) = Except.ok (some exPtCanon)) ∧
    exPtCanon.uv_time = exPtStr.uv_time :=
  ⟨⟨by decide, by decide, by decide, by decide⟩,
    c8_idempotent_timestamp exRecStr exRecCanon exPtStr exPtCanon
      { parseMs := some 1700000000000, parseZMs := none }
      (by decide) (by decide) (by decide) (by decide)⟩

/-! ## Claim C9 -/

/-- C9 (counterexample): the claim that the core never raises an error
to the caller is false — a record whose numeric timestamp exceeds the
representable `Date` range makes the canonicalization throw a
`RangeError`, which escapes the series builder. -/
theorem c9_counterexample :
    buildSeries
        { forecast := some [some { time := some (TsVal.num 10000000000000000),
                                   uv := some (some 5) }] }
      = Except.error JsError.rangeError := by
  decide

/-- C9 (amended): an empty forecast array, or an envelope where neither
recognized location holds an array, yields an empty series, and the
empty series yields an empty segment list; and the core returns a
(possibly empty) series without raising for every envelope whose numeric
timestamps lie within the representable `Date` range — only a numeric
timestamp beyond ±8.64×10¹⁵ makes the canonicalization throw. -/
theorem c9_empty_input_total :
    (∀ rf, buildSeries { forecast := some [], resultForecast := rf } = Except.ok []) ∧
    buildSeries { forecast := none, resultForecast := none } = Except.ok [] ∧
    splitIntoSegments [] = [] ∧
    (∀ d : Envelope, envOk d → ∃ pts, buildSeries d = Except.ok pts) := by
  refine ⟨fun rf => rfl, rfl, rfl, ?_⟩
  intro d hok
  unfold buildSeries
  cases hsel : selectRawForecast d with
  | none => exact ⟨[], rfl⟩
  | some raws =>
    simp only [envOk, hsel] at hok
    exact buildFromRaws_no_throw raws hok

theorem c9_empty_input_total_witness :
    envOk exEnvSeconds ∧ ∃ pts, buildSeries exEnvSeconds = Except.ok pts := by
  have henv : envOk exEnvSeconds := by
    show ∀ r ∈ [some { time := some (TsVal.num 1700000000), uv := some (some 5) }],
      tsNumOk r = true
    decide
  exact ⟨henv, c9_empty_input_total.2.2.2 exEnvSeconds henv⟩

/-! ## Claim C10 -/

/-- C10: for every input series the segmentation output is an exact
ordered partition — concatenating the returned segments in order yields
precisely the input list, every point appearing in exactly one segment
with no point shared between adjacent segments. -/
theorem c10_exact_partition (data : List ChartPoint) :
    (splitIntoSegments data).flatten = data :=
  (splitIntoSegments_spec data).1

end UVSafe
